import Mathlib

/-
  Verification of the sfntshape library (a Go package that builds vector
  shapes from path commands and rasterizes them into alpha coverage masks).

  Shallow embedding conventions:
  * `fixed.Int26_6` (26.6 fixed point, a Go int32) is modelled as `Int`.
    Arithmetic that the Go code performs on int32/int64 values is modelled
    exactly; the places where a conversion truncates to 32 bits (the
    `Int26_6(...)` conversion inside `Mul`, int32 negation, the
    `Fract(x << 6)` conversions of the integer path commands) carry an
    explicit `toInt32` wrap.  Plain additions of coordinates inside the
    bounds pipeline are modelled on `Int` without wrapping: no claim under
    scrutiny concerns coordinate-addition overflow, and the claimed
    formulas are the very expressions the code computes, so claim truth is
    unaffected.
  * Go float64 values reaching `fixedFromFloat64` are modelled as exact
    rationals.  For finite in-range inputs (|value| < 2^25) every floating
    operation the function performs is exact: `value*64` scales by a power
    of two, the float64->Fract conversion truncates toward zero, the
    int32->float64 conversion and division by 64 are exact, and the final
    subtraction is exact because both operands are multiples of a shared
    ulp; so the rational model computes the same answers bit for bit.
  * The external `vector.Rasterizer` (the coverage accumulator) is out of
    scope per the spec.  Rasterization is parametrized by a function
    `drawCoverage : Int -> Int -> List AccOp -> (Int -> Int -> Nat)` that
    stands for the accumulator: given the reset dimensions and the replayed
    command trace it yields the per-pixel coverage of the freshly drawn
    [0,width) x [0,height) canvas.  The rasterization driver additionally
    returns the trace of accumulator calls it issued, so that "the
    accumulator is not reset or driven" is an inspectable fact.
  * Fallible/panicking Go code is modelled with `Option`/`Except`:
    `Rasterize` returns the Go pair (mask pointer, error) as
    `Option AlphaMask × Option GoError`, and `Shape.Paint` returns
    `Except GoPanic (Option RGBAImage)` where `.error` marks a Go panic
    (nil-pointer dereference or an explicit `panic(err)`).
-/

namespace Sfntshape

/-- Two's-complement wrap of an integer into the int32 range
`[-2^31, 2^31)`; models Go conversions to int32-sized types. -/
def toInt32 (n : Int) : Int := (n + 2 ^ 31) % 2 ^ 32 - 2 ^ 31

/-- Go negation `-x` of an int32 value (wraps at the minimum value). -/
def i32neg (n : Int) : Int := toInt32 (-n)

/-- `fixedFloor` from fixed.go: `value & ^0x3F` clears the low 6 bits of
the two's-complement representation, i.e. rounds down to the nearest
multiple of 64.  On `Int`, that is `value - value % 64` (`%` is Euclidean
mod, always in `[0, 64)`). -/
def fixedFloor (value : Int) : Int := value - value % 64

/-- `fixedCeil` from fixed.go: `fixedFloor(value + 0x3F)`. -/
def fixedCeil (value : Int) : Int := fixedFloor (value + 0x3F)

/-- `fixedFract` from fixed.go: `value & 0x3F`, the low 6 bits of the
two's-complement representation, always in `[0, 64)`; on `Int` this is
Euclidean `value % 64`. -/
def fixedFract (value : Int) : Int := value % 64

/-- `fixedToIntFloor` from fixed.go: `int(value) >> 6`, an arithmetic
shift, i.e. floor division by 64 (Euclidean `/` on `Int` floors for the
positive divisor 64). -/
def fixedToIntFloor (value : Int) : Int := value / 64

/-- `fixedToF32` from fixed.go: `float32(value)/64.0`, modelled as an
exact rational.  (The float32 conversion rounds for |value| >= 2^24; no
claim depends on the numeric value of accumulator coordinates, which is
the only place this function is used.) -/
def fixedToF32 (value : Int) : ℚ := (value : ℚ) / 64

/-- `fixedToF64` from fixed.go: `float64(value)/64.0`, exact for every
int32 value. -/
def fixedToF64 (value : Int) : ℚ := (value : ℚ) / 64

/-- `Int26_6.Ceil` from golang.org/x/image/math/fixed:
`int((x + 0x3f) >> 6)` (arithmetic shift, i.e. floor division by 64). -/
def int26Ceil (x : Int) : Int := (x + 0x3F) / 64

/-- `Int26_6.Mul` from golang.org/x/image/math/fixed:
`Int26_6((int64(x)*int64(y) + 1<<5) >> 6)`.  The int64 product of two
int32 values never overflows; the shift floors; the final conversion back
to `Int26_6` wraps to int32. -/
def fixedMul (x y : Int) : Int := toInt32 ((x * y + 32) / 64)

/-- Go conversion of a float64 to an integer type: the fractional part is
discarded (truncation toward zero). -/
def ratTrunc (q : ℚ) : Int := if 0 ≤ q then ⌊q⌋ else ⌈q⌉

/-- `fixedFromFloat64` from fixed.go, on the exact-rational model of
float64 (see the header comment): compute `Fract(value*64)` by truncation,
return it if it reconstructs the input exactly, otherwise adjust down to
the floor and round up when the remaining distance is at least half a
unit (0.0078125 = 1/128). -/
def fixedFromFloat64 (value : ℚ) : Int :=
  let fractApprox := ratTrunc (value * 64)
  let fp64Approx := fixedToF64 fractApprox
  if fp64Approx = value then fractApprox
  else
    let fractApprox := if fp64Approx > value then fractApprox - 1 else fractApprox
    let fp64Approx := fixedToF64 fractApprox
    if value - fp64Approx ≥ 0.0078125 then fractApprox + 1 else fractApprox

/-- The four `sfnt.SegmentOp` values used by this package (a closed
variant set: the replay loop treats anything else as unreachable). -/
inductive SegmentOp
  | moveTo
  | lineTo
  | quadTo
  | cubeTo
  deriving DecidableEq

/-- `fixed.Point26_6`. -/
structure Point26_6 where
  x : Int
  y : Int
  deriving DecidableEq

/-- `sfnt.Segment`: an op plus three argument points (unused points are
left zero, as in the Go literals built by the Shape methods). -/
structure Segment where
  op : SegmentOp
  args : Point26_6 × Point26_6 × Point26_6
  deriving DecidableEq

/-- `fixed.Rectangle26_6` (min/max corners, flattened). -/
structure Rect26_6 where
  minX : Int
  minY : Int
  maxX : Int
  maxY : Int
  deriving DecidableEq

/-- The points of a segment that `sfnt.Segments.Bounds` inspects: one for
move/line, two for quad, three for cube. -/
def Segment.boundsPoints (s : Segment) : List Point26_6 :=
  match s.op with
  | .moveTo => [s.args.1]
  | .lineTo => [s.args.1]
  | .quadTo => [s.args.1, s.args.2.1]
  | .cubeTo => [s.args.1, s.args.2.1, s.args.2.2]

/-- One min/max expansion step of the bounds loop. -/
def expandRect (r : Rect26_6) (p : Point26_6) : Rect26_6 :=
  ⟨min r.minX p.x, min r.minY p.y, max r.maxX p.x, max r.maxY p.y⟩

/-- `sfnt.Segments.Bounds` (golang.org/x/image/font/sfnt): the zero
rectangle for an empty list, otherwise the min/max fold over every
control/end point of every segment, starting from inverted int32
extremes. -/
def segBounds (segs : List Segment) : Rect26_6 :=
  if segs = [] then ⟨0, 0, 0, 0⟩
  else
    segs.foldl (fun r s => s.boundsPoints.foldl expandRect r)
      ⟨2 ^ 31 - 1, 2 ^ 31 - 1, -2 ^ 31, -2 ^ 31⟩

/-- `image.Point`. -/
structure IPoint where
  x : Int
  y : Int
  deriving DecidableEq

/-- `image.Rectangle` (corners flattened). -/
structure IRect where
  minX : Int
  minY : Int
  maxX : Int
  maxY : Int
  deriving DecidableEq

/-- `image.Rectangle.Add`: translate a rectangle by a point. -/
def IRect.add (r : IRect) (p : IPoint) : IRect :=
  ⟨r.minX + p.x, r.minY + p.y, r.maxX + p.x, r.maxY + p.y⟩

/-- The five results of `figureOutBounds`, bundled. -/
structure BoundsInfo where
  width : Int
  height : Int
  normOffsetX : Int
  normOffsetY : Int
  maskCorrection : IPoint
  deriving DecidableEq

/-- `figureOutBounds` from fixed.go. -/
def figureOutBounds (bounds : Rect26_6) (originX originY : Int) : BoundsInfo :=
  let floorMinX := fixedFloor bounds.minX
  let floorMinY := fixedFloor bounds.minY
  let maskCorrection : IPoint := ⟨fixedToIntFloor floorMinX, fixedToIntFloor floorMinY⟩
  let normOffsetX := -floorMinX + fixedFract originX
  let normOffsetY := -floorMinY + fixedFract originY
  let width := int26Ceil (bounds.maxX + normOffsetX)
  let height := int26Ceil (bounds.maxY + normOffsetY)
  ⟨width, height, normOffsetX, normOffsetY, maskCorrection⟩

/-- One call made to the external coverage accumulator
(`vector.Rasterizer`). -/
inductive AccOp
  | reset (width height : Int)
  | moveTo (x y : ℚ)
  | lineTo (x y : ℚ)
  | quadTo (cx cy x y : ℚ)
  | cubeTo (cx1 cy1 cx2 cy2 x y : ℚ)
  | draw
  deriving DecidableEq

/-- `processOutline` from fixed.go: replay every segment into the
accumulator, translating each point by the normalization offset and
converting to the accumulator's floating format.  Modelled as the list of
calls issued.  (The Go `default: panic` arm of the switch is unreachable
here because `SegmentOp` is a closed variant set.) -/
def processOutline (outline : List Segment) (offsetX offsetY : Int) : List AccOp :=
  outline.map fun seg =>
    match seg.op with
    | .moveTo =>
        .moveTo (fixedToF32 (seg.args.1.x + offsetX)) (fixedToF32 (seg.args.1.y + offsetY))
    | .lineTo =>
        .lineTo (fixedToF32 (seg.args.1.x + offsetX)) (fixedToF32 (seg.args.1.y + offsetY))
    | .quadTo =>
        .quadTo (fixedToF32 (seg.args.1.x + offsetX)) (fixedToF32 (seg.args.1.y + offsetY))
          (fixedToF32 (seg.args.2.1.x + offsetX)) (fixedToF32 (seg.args.2.1.y + offsetY))
    | .cubeTo =>
        .cubeTo (fixedToF32 (seg.args.1.x + offsetX)) (fixedToF32 (seg.args.1.y + offsetY))
          (fixedToF32 (seg.args.2.1.x + offsetX)) (fixedToF32 (seg.args.2.1.y + offsetY))
          (fixedToF32 (seg.args.2.2.x + offsetX)) (fixedToF32 (seg.args.2.2.y + offsetY))

/-- Model of `*image.Alpha`: the addressable rectangle plus the pixel
bytes; `pix` is indexed relative to the rectangle's min corner, exactly
like `image.Alpha.PixOffset`, so translating `rect` does not touch the
data. -/
structure AlphaMask where
  rect : IRect
  pix : Int → Int → Nat

/-- `image.Alpha.AlphaAt`: zero outside the addressable rectangle,
otherwise the byte at the offset relative to the rectangle's min
corner. -/
def AlphaMask.alphaAt (m : AlphaMask) (x y : Int) : Nat :=
  if m.rect.minX ≤ x ∧ x < m.rect.maxX ∧ m.rect.minY ≤ y ∧ y < m.rect.maxY then
    m.pix (x - m.rect.minX) (y - m.rect.minY)
  else 0

/-- The stand-in for the external accumulator (see header comment): reset
dimensions and replayed command list in, per-pixel coverage of the fresh
`[0,width) x [0,height)` canvas out. -/
def DrawFn : Type := Int → Int → List AccOp → (Int → Int → Nat)

/-- Go's `error` payloads (this package never constructs one: both return
paths of `Rasterize` yield a nil error). -/
def GoError : Type := String

/-- `etxtLikeRasterize` from fixed.go: compute the outline bounds, size
the accumulator, replay the normalized outline into it, extract the
coverage into a fresh mask whose rectangle starts at `[0,width) x
[0,height)`, and finally translate the mask rectangle by the bounds
correction.  Returns the Go `(mask, error)` pair plus the trace of
accumulator calls. -/
def etxtLikeRasterize (drawCoverage : DrawFn) (outline : List Segment)
    (originX originY : Int) : (Option AlphaMask × Option GoError) × List AccOp :=
  let bounds := segBounds outline
  let fb := figureOutBounds bounds originX originY
  let ops := processOutline outline fb.normOffsetX fb.normOffsetY
  let trace := AccOp.reset fb.width fb.height :: ops ++ [AccOp.draw]
  let mask0 : AlphaMask := ⟨⟨0, 0, fb.width, fb.height⟩, drawCoverage fb.width fb.height ops⟩
  let mask : AlphaMask := ⟨mask0.rect.add fb.maskCorrection, mask0.pix⟩
  ((some mask, none), trace)

/-- `Rasterize` from fixed.go: if the outline has no segment other than
MoveTo commands (in particular if it is empty), return `(nil, nil)`
without touching the accumulator; otherwise defer to
`etxtLikeRasterize`. -/
def Rasterize (drawCoverage : DrawFn) (outline : List Segment)
    (originX originY : Int) : (Option AlphaMask × Option GoError) × List AccOp :=
  if ∀ seg ∈ outline, seg.op = SegmentOp.moveTo then ((none, none), [])
  else etxtLikeRasterize drawCoverage outline originX originY

/-- The `Shape` struct.  The owned `*vector.Rasterizer` is represented by
an opaque handle: nothing in this package reads it except to pass it to
`Rasterize`, and claims only ask whether it is preserved. -/
structure Shape where
  rasterizer : Nat
  segments : List Segment
  scale : Int
  invertY : Bool

/-- `New` from shape.go: fresh rasterizer, empty segment storage, invert-Y
off, scale 64 (= 1.0 in 26.6 fixed point). -/
def New : Shape := ⟨0, [], 64, false⟩

/-- `Shape.GetScale`. -/
def Shape.GetScale (self : Shape) : Int := self.scale

/-- `Shape.SetScaleFract`. -/
def Shape.SetScaleFract (self : Shape) (scale : Int) : Shape :=
  { self with scale := scale }

/-- `Shape.SetScale`: converts the float factor via `fixedFromFloat64`. -/
def Shape.SetScale (self : Shape) (scale : ℚ) : Shape :=
  self.SetScaleFract (fixedFromFloat64 scale)

/-- `Shape.HasInvertY`. -/
def Shape.HasInvertY (self : Shape) : Bool := self.invertY

/-- `Shape.InvertY`. -/
def Shape.InvertY (self : Shape) (active : Bool) : Shape :=
  { self with invertY := active }

/-- `Shape.Segments`: the aliased view over the accumulated commands. -/
def Shape.Segments (self : Shape) : List Segment := self.segments

/-- `Shape.MoveToFract` from shape.go: flip Y unless invert-Y is active,
scale both coordinates when the scale factor is not 64, append a MoveTo
segment. -/
def Shape.MoveToFract (self : Shape) (x y : Int) : Shape :=
  let y := if !self.invertY then i32neg y else y
  let x := if self.scale ≠ 64 then fixedMul x self.scale else x
  let y := if self.scale ≠ 64 then fixedMul y self.scale else y
  { self with segments :=
      self.segments ++ [⟨SegmentOp.moveTo, (⟨x, y⟩, ⟨0, 0⟩, ⟨0, 0⟩)⟩] }

/-- `Shape.MoveTo`: whole-pixel variant; `Fract(x << 6)` shifts and wraps
to int32. -/
def Shape.MoveTo (self : Shape) (x y : Int) : Shape :=
  self.MoveToFract (toInt32 (x * 64)) (toInt32 (y * 64))

/-- `Shape.LineToFract` from shape.go. -/
def Shape.LineToFract (self : Shape) (x y : Int) : Shape :=
  let y := if !self.invertY then i32neg y else y
  let x := if self.scale ≠ 64 then fixedMul x self.scale else x
  let y := if self.scale ≠ 64 then fixedMul y self.scale else y
  { self with segments :=
      self.segments ++ [⟨SegmentOp.lineTo, (⟨x, y⟩, ⟨0, 0⟩, ⟨0, 0⟩)⟩] }

/-- `Shape.LineTo`: whole-pixel variant. -/
def Shape.LineTo (self : Shape) (x y : Int) : Shape :=
  self.LineToFract (toInt32 (x * 64)) (toInt32 (y * 64))

/-- `Shape.QuadToFract` from shape.go: both the control point and the end
point get the identical flip/scale treatment. -/
def Shape.QuadToFract (self : Shape) (ctrlX ctrlY x y : Int) : Shape :=
  let ctrlY := if !self.invertY then i32neg ctrlY else ctrlY
  let y := if !self.invertY then i32neg y else y
  let ctrlX := if self.scale ≠ 64 then fixedMul ctrlX self.scale else ctrlX
  let ctrlY := if self.scale ≠ 64 then fixedMul ctrlY self.scale else ctrlY
  let x := if self.scale ≠ 64 then fixedMul x self.scale else x
  let y := if self.scale ≠ 64 then fixedMul y self.scale else y
  { self with segments :=
      self.segments ++ [⟨SegmentOp.quadTo, (⟨ctrlX, ctrlY⟩, ⟨x, y⟩, ⟨0, 0⟩)⟩] }

/-- `Shape.QuadTo`: whole-pixel variant. -/
def Shape.QuadTo (self : Shape) (ctrlX ctrlY x y : Int) : Shape :=
  self.QuadToFract (toInt32 (ctrlX * 64)) (toInt32 (ctrlY * 64))
    (toInt32 (x * 64)) (toInt32 (y * 64))

/-- `Shape.CubeToFract` from shape.go: both control points and the end
point get the identical flip/scale treatment. -/
def Shape.CubeToFract (self : Shape) (cx1 cy1 cx2 cy2 x y : Int) : Shape :=
  let cy1 := if !self.invertY then i32neg cy1 else cy1
  let cy2 := if !self.invertY then i32neg cy2 else cy2
  let y := if !self.invertY then i32neg y else y
  let cx1 := if self.scale ≠ 64 then fixedMul cx1 self.scale else cx1
  let cx2 := if self.scale ≠ 64 then fixedMul cx2 self.scale else cx2
  let cy1 := if self.scale ≠ 64 then fixedMul cy1 self.scale else cy1
  let cy2 := if self.scale ≠ 64 then fixedMul cy2 self.scale else cy2
  let x := if self.scale ≠ 64 then fixedMul x self.scale else x
  let y := if self.scale ≠ 64 then fixedMul y self.scale else y
  { self with segments :=
      self.segments ++ [⟨SegmentOp.cubeTo, (⟨cx1, cy1⟩, ⟨cx2, cy2⟩, ⟨x, y⟩)⟩] }

/-- `Shape.CubeTo`: whole-pixel variant. -/
def Shape.CubeTo (self : Shape) (cx1 cy1 cx2 cy2 x y : Int) : Shape :=
  self.CubeToFract (toInt32 (cx1 * 64)) (toInt32 (cy1 * 64))
    (toInt32 (cx2 * 64)) (toInt32 (cy2 * 64)) (toInt32 (x * 64)) (toInt32 (y * 64))

/-- `Shape.Reset` from shape.go: `self.segments = self.segments[0:0]`
truncates the segment sequence to length zero (the backing array is
retained in Go; value semantics here).  No other field is touched. -/
def Shape.Reset (self : Shape) : Shape := { self with segments := [] }

/-- `Shape.RasterizeFract` from shape.go. -/
def Shape.RasterizeFract (drawCoverage : DrawFn) (self : Shape)
    (offsetX offsetY : Int) : (Option AlphaMask × Option GoError) × List AccOp :=
  if self.Segments = [] then ((none, none), [])
  else Rasterize drawCoverage self.Segments offsetX offsetY

/-- `Shape.Rasterize` from shape.go: rasterize with zero offset. -/
def Shape.Rasterize (drawCoverage : DrawFn) (self : Shape) :
    (Option AlphaMask × Option GoError) × List AccOp :=
  self.RasterizeFract drawCoverage 0 0

/-- The observable content of a Go `color.Color`: the alpha-premultiplied
16-bit-per-channel quadruple its `RGBA()` method returns (each component a
uint32 holding a value that a lawful color keeps in `[0, 0xFFFF]` with
channel <= alpha). -/
structure GoColor where
  r : Nat
  g : Nat
  b : Nat
  a : Nat
  deriving DecidableEq

/-- Wrap to uint32. -/
def u32 (n : Nat) : Nat := n % 2 ^ 32

/-- Go uint32 subtraction `a - b` (wraps modulo 2^32). -/
def u32sub (a b : Nat) : Nat := (2 ^ 32 + a % 2 ^ 32 - b % 2 ^ 32) % 2 ^ 32

/-- `uint16N` from shape.go: clamp a uint32 into uint16 range (values at
most 65535 pass through the `uint16(value)` conversion unchanged). -/
def uint16N (value : Nat) : Nat := if value > 65535 then 65535 else value % 2 ^ 16

/-- `mixColors` from shape.go: source-over compositing on the RGBA views,
with the three special cases short-circuited and each general channel
computed as `(dr*0xFFFF + br*(0xFFFF-da)) / 0xFFFF` in uint32 arithmetic,
clamped by `uint16N`. -/
def mixColors (draw back : GoColor) : GoColor :=
  if draw.a = 0xFFFF then draw
  else if draw.a = 0 then back
  else if back.a = 0 then draw
  else
    ⟨uint16N (u32 (u32 (draw.r * 0xFFFF) + u32 (back.r * u32sub 0xFFFF draw.a)) / 0xFFFF),
     uint16N (u32 (u32 (draw.g * 0xFFFF) + u32 (back.g * u32sub 0xFFFF draw.a)) / 0xFFFF),
     uint16N (u32 (u32 (draw.b * 0xFFFF) + u32 (back.b * u32sub 0xFFFF draw.a)) / 0xFFFF),
     uint16N (u32 (u32 (draw.a * 0xFFFF) + u32 (back.a * u32sub 0xFFFF draw.a)) / 0xFFFF)⟩

/-- `color.NRGBA64.RGBA()` from the Go color package: every channel is
multiplied by the (non-premultiplied) alpha and divided by 0xFFFF; the
products of two uint16 values fit uint32. -/
def nrgba64ToRGBA (r g b a : Nat) : GoColor :=
  ⟨u32 (r * a) / 0xFFFF, u32 (g * a) / 0xFFFF, u32 (b * a) / 0xFFFF, a⟩

/-- The per-pixel foreground color built inside `Shape.Paint`: the
NRGBA64 whose R,G,B are the (premultiplied) channels of the draw color's
RGBA view truncated to uint16, and whose alpha is the draw color's alpha
scaled by the mask coverage, `uint16((a*coverage)/255)`; `mixColors`
consumes its RGBA view. -/
def paintSource (drawColor : GoColor) (coverage : Nat) : GoColor :=
  nrgba64ToRGBA (drawColor.r % 2 ^ 16) (drawColor.g % 2 ^ 16) (drawColor.b % 2 ^ 16)
    (u32 (drawColor.a * coverage) / 255 % 2 ^ 16)

/-- The color `Shape.Paint` composites at a pixel with the given mask
coverage. -/
def paintPixel (drawColor backColor : GoColor) (coverage : Nat) : GoColor :=
  mixColors (paintSource drawColor coverage) backColor

/-- Model of `*image.RGBA` as produced by `Shape.Paint`: the rectangle and
the per-pixel composited color.  (The final `rgba.Set` store conversion of
that color through the stdlib 8-bit RGBA model is outside the claims.) -/
structure RGBAImage where
  rect : IRect
  pixelAt : Int → Int → GoColor

/-- The pixel loop of `Shape.Paint`: every pixel of the mask rectangle
receives the composite of the coverage-scaled foreground over the
background; pixels outside the loop keep the zero value `image.NewRGBA`
allocated. -/
def renderRGBA (mask : AlphaMask) (drawColor backColor : GoColor) : RGBAImage :=
  ⟨mask.rect, fun x y =>
    if mask.rect.minX ≤ x ∧ x < mask.rect.maxX ∧ mask.rect.minY ≤ y ∧ y < mask.rect.maxY then
      paintPixel drawColor backColor (mask.alphaAt x y)
    else ⟨0, 0, 0, 0⟩⟩

/-- The two ways `Shape.Paint` can abort: the explicit `panic(err)` after
a rasterization error, and the nil-pointer dereference of `mask.Rect`
when `Rasterize` returned the "nothing to draw" nil mask. -/
inductive GoPanic
  | errPanic
  | nilDeref
  deriving DecidableEq

/-- `Shape.Paint` from shape.go: nil result for an empty shape; panic on a
rasterization error; otherwise dereference the mask (which panics when the
mask is the nil "nothing to draw" sentinel) and composite every pixel. -/
def Shape.Paint (drawCoverage : DrawFn) (self : Shape)
    (drawColor backColor : GoColor) : Except GoPanic (Option RGBAImage) :=
  if self.Segments = [] then .ok none
  else
    match Sfntshape.Rasterize drawCoverage self.Segments 0 0 with
    | ((_, some _), _) => .error .errPanic
    | ((none, none), _) => .error .nilDeref
    | ((some mask, none), _) => .ok (some (renderRGBA mask drawColor backColor))

/-- The Y treatment a single appended coordinate receives (the
`if !self.invertY { y = -y }` line shared by all append commands): the
inactive state negates, the active state keeps the given sign. -/
def flipApply (self : Shape) (v : Int) : Int := if self.invertY then v else i32neg v

/-- The scale treatment a single appended coordinate receives (the
`if self.scale != 64 { v = v.Mul(self.scale) }` line shared by all append
commands). -/
def scApply (self : Shape) (v : Int) : Int :=
  if self.scale ≠ 64 then fixedMul v self.scale else v

/-- A concrete stand-in accumulator used by concrete evaluations. -/
def sampleDraw : DrawFn := fun _ _ _ => fun _ _ => 0

/-- A concrete segment list consisting only of MoveTo commands. -/
def moveOnlySegs : List Segment :=
  [⟨SegmentOp.moveTo, (⟨3, 4⟩, ⟨0, 0⟩, ⟨0, 0⟩)⟩,
   ⟨SegmentOp.moveTo, (⟨-5, 7⟩, ⟨0, 0⟩, ⟨0, 0⟩)⟩]

/-- A concrete shape holding only MoveTo segments. -/
def moveOnlyShape : Shape := ⟨0, moveOnlySegs, 64, false⟩

/-- A concrete outline with an actual boundary segment: move to (0,0),
line to (1,1) in whole pixels. -/
def lineSegs : List Segment :=
  [⟨SegmentOp.moveTo, (⟨0, 0⟩, ⟨0, 0⟩, ⟨0, 0⟩)⟩,
   ⟨SegmentOp.lineTo, (⟨64, 64⟩, ⟨0, 0⟩, ⟨0, 0⟩)⟩]

/- ------------------------------------------------------------------ -/
/- Helper lemmas                                                       -/
/- ------------------------------------------------------------------ -/

theorem uint16N_eq_min (v : Nat) : uint16N v = min v 65535 := by
  unfold uint16N; split_ifs <;> omega

/-- `int26Ceil` really is the whole-pixel ceiling: it returns the least
integer `w` with `v <= 64*w`. -/
theorem int26Ceil_is_ceil (v : Int) :
    64 * (int26Ceil v - 1) < v ∧ v ≤ 64 * int26Ceil v := by
  unfold int26Ceil; omega

/-- In the general branch of `mixColors`, none of the uint32 operations
wraps for lawful premultiplied colors, and the channel computation is the
plain natural-number source-over formula. -/
theorem mixChannel_no_wrap (dc bc da : Nat) (hdc : dc ≤ da) (hda : da ≤ 65535)
    (hbc : bc ≤ 65535) :
    u32 (u32 (dc * 0xFFFF) + u32 (bc * u32sub 0xFFFF da)) / 0xFFFF =
      (dc * 65535 + bc * (65535 - da)) / 65535 := by
  have hsub : u32sub 0xFFFF da = 65535 - da := by unfold u32sub; omega
  rw [hsub]
  have key : ∀ X Y : Nat, X ≤ da * 65535 → Y ≤ 65535 * (65535 - da) →
      u32 (u32 X + u32 Y) / 65535 = (X + Y) / 65535 := by
    intro X Y hX hY
    have hbound : da * 65535 + 65535 * (65535 - da) < 2 ^ 32 := by omega
    unfold u32
    rw [Nat.mod_eq_of_lt (by omega), Nat.mod_eq_of_lt (by omega),
      Nat.mod_eq_of_lt (by omega)]
  exact key _ _ (Nat.mul_le_mul_right _ hdc) (Nat.mul_le_mul_right _ hbc)

theorem toInt32_eq_self {a : Int} (h1 : -2 ^ 31 ≤ a) (h2 : a < 2 ^ 31) :
    toInt32 a = a := by
  unfold toInt32; omega

theorem toInt32_neg_toInt32 (a : Int) : toInt32 (-toInt32 a) = toInt32 (-a) := by
  unfold toInt32; omega

/-- The control flow of `fixedFromFloat64` collapses to round-half-up:
the result is always `⌊value*64 + 1/2⌋`. -/
theorem fixedFromFloat64_eq_floor (q : ℚ) :
    fixedFromFloat64 q = ⌊q * 64 + 1 / 2⌋ := by
  have hfl : ((⌊q * 64⌋ : ℤ) : ℚ) ≤ q * 64 := Int.floor_le _
  have hfl2 : q * 64 < ⌊q * 64⌋ + 1 := Int.lt_floor_add_one _
  have htr : ratTrunc (q * 64) = ⌊q * 64⌋ ∨ ratTrunc (q * 64) = ⌈q * 64⌉ := by
    unfold ratTrunc; split_ifs <;> [exact Or.inl rfl; exact Or.inr rfl]
  simp only [fixedFromFloat64, fixedToF64]
  split_ifs with hA hB hC hC
  · -- exact reconstruction: value*64 is the integer ratTrunc (q*64)
    have hint : ((ratTrunc (q * 64) : ℤ) : ℚ) = q * 64 := by
      field_simp at hA; linarith
    symm
    rw [Int.floor_eq_iff]
    constructor
    · rw [hint]; linarith
    · rw [hint]; linarith
  · -- truncation overshot (negative non-integer); decremented to the floor,
    -- and the remaining distance is at least half a unit: round up
    have hm : ratTrunc (q * 64) = ⌊q * 64⌋ + 1 := by
      rcases htr with h | h
      · exfalso; rw [h] at hB; linarith
      · have hceil : ⌈q * 64⌉ ≤ ⌊q * 64⌋ + 1 := Int.ceil_le_floor_add_one _
        have hgt : ⌊q * 64⌋ < ratTrunc (q * 64) := by
          have : ((⌊q * 64⌋ : ℤ) : ℚ) < ((ratTrunc (q * 64) : ℤ) : ℚ) := by linarith
          exact_mod_cast this
        omega
    rw [hm] at hC ⊢
    have hhalf : q * 64 - ⌊q * 64⌋ ≥ 1 / 2 := by
      push_cast at hC ⊢
      have h128 : (0.0078125 : ℚ) = 1 / 128 := by norm_num
      rw [h128] at hC
      nlinarith [hC]
    symm
    rw [Int.floor_eq_iff]
    constructor
    · push_cast; linarith
    · push_cast; linarith
  · -- truncation overshot, distance below half a unit: keep the floor
    have hm : ratTrunc (q * 64) = ⌊q * 64⌋ + 1 := by
      rcases htr with h | h
      · exfalso; rw [h] at hB; linarith
      · have hceil : ⌈q * 64⌉ ≤ ⌊q * 64⌋ + 1 := Int.ceil_le_floor_add_one _
        have hgt : ⌊q * 64⌋ < ratTrunc (q * 64) := by
          have : ((⌊q * 64⌋ : ℤ) : ℚ) < ((ratTrunc (q * 64) : ℤ) : ℚ) := by linarith
          exact_mod_cast this
        omega
    rw [hm] at hC ⊢
    have hhalf : q * 64 - ⌊q * 64⌋ < 1 / 2 := by
      push_cast at hC ⊢
      have h128 : (0.0078125 : ℚ) = 1 / 128 := by norm_num
      rw [h128] at hC
      push_neg at hC
      nlinarith [hC]
    symm
    rw [Int.floor_eq_iff]
    constructor
    · push_cast; linarith
    · push_cast; linarith
  · -- truncation already at or below the value (the floor); round up
    have hm : ratTrunc (q * 64) = ⌊q * 64⌋ := by
      rcases htr with h | h
      · exact h
      · have hle : q * 64 ≤ ((ratTrunc (q * 64) : ℤ) : ℚ) := by
          rw [h]; exact_mod_cast Int.le_ceil _
        have hlt : ((ratTrunc (q * 64) : ℤ) : ℚ) < q * 64 := by
          push_neg at hB
          rcases lt_or_eq_of_le hB with hlt | heq
          · linarith
          · exfalso; apply hA; rw [heq]
        linarith
    rw [hm] at hC ⊢
    have hhalf : q * 64 - ⌊q * 64⌋ ≥ 1 / 2 := by
      have h128 : (0.0078125 : ℚ) = 1 / 128 := by norm_num
      rw [h128] at hC
      nlinarith [hC]
    symm
    rw [Int.floor_eq_iff]
    constructor
    · push_cast; linarith
    · push_cast; linarith
  · -- truncation at the floor, distance below half a unit: keep the floor
    have hm : ratTrunc (q * 64) = ⌊q * 64⌋ := by
      rcases htr with h | h
      · exact h
      · have hle : q * 64 ≤ ((ratTrunc (q * 64) : ℤ) : ℚ) := by
          rw [h]; exact_mod_cast Int.le_ceil _
        have hlt : ((ratTrunc (q * 64) : ℤ) : ℚ) < q * 64 := by
          push_neg at hB
          rcases lt_or_eq_of_le hB with hlt | heq
          · linarith
          · exfalso; apply hA; rw [heq]
        linarith
    rw [hm] at hC ⊢
    have hhalf : q * 64 - ⌊q * 64⌋ < 1 / 2 := by
      have h128 : (0.0078125 : ℚ) = 1 / 128 := by norm_num
      rw [h128] at hC
      push_neg at hC
      nlinarith [hC]
    symm
    rw [Int.floor_eq_iff]
    constructor
    · linarith
    · linarith

/- ------------------------------------------------------------------ -/
/- Claim theorems                                                      -/
/- ------------------------------------------------------------------ -/

/-- C3: for every input (exact-rational model of a finite in-range
float64), `fixedFromFloat64` returns the representable 26.6 value nearest
to `value*64`: no integer is strictly closer, an exactly representable
input is returned exactly, and an input exactly halfway between two
consecutive representable values (such as 0.0078125 above one) rounds to
the larger of the two. -/
theorem fixedFromFloat64_round_nearest_half_up (q : ℚ) :
    (∀ n : ℤ, |q * 64 - ((fixedFromFloat64 q : ℤ) : ℚ)| ≤ |q * 64 - (n : ℚ)|) ∧
    ((∃ n : ℤ, q * 64 = (n : ℚ)) → ((fixedFromFloat64 q : ℤ) : ℚ) = q * 64) ∧
    (q * 64 - ((⌊q * 64⌋ : ℤ) : ℚ) = 1 / 2 → fixedFromFloat64 q = ⌊q * 64⌋ + 1) := by
  have hr := fixedFromFloat64_eq_floor q
  have h1 : ((⌊q * 64 + 1 / 2⌋ : ℤ) : ℚ) ≤ q * 64 + 1 / 2 := Int.floor_le _
  have h2 : q * 64 + 1 / 2 < ⌊q * 64 + 1 / 2⌋ + 1 := Int.lt_floor_add_one _
  rw [hr]
  have hd : |q * 64 - ((⌊q * 64 + 1 / 2⌋ : ℤ) : ℚ)| ≤ 1 / 2 := by
    rw [abs_le]; constructor <;> linarith
  refine ⟨?_, ?_, ?_⟩
  · intro n
    rcases lt_trichotomy n ⌊q * 64 + 1 / 2⌋ with h | h | h
    · have hn : (n : ℚ) + 1 ≤ ((⌊q * 64 + 1 / 2⌋ : ℤ) : ℚ) := by
        exact_mod_cast Int.add_one_le_iff.mpr h
      calc |q * 64 - ((⌊q * 64 + 1 / 2⌋ : ℤ) : ℚ)| ≤ 1 / 2 := hd
        _ ≤ q * 64 - (n : ℚ) := by linarith
        _ ≤ |q * 64 - (n : ℚ)| := le_abs_self _
    · rw [h]
    · have hn : ((⌊q * 64 + 1 / 2⌋ : ℤ) : ℚ) + 1 ≤ (n : ℚ) := by
        exact_mod_cast Int.add_one_le_iff.mpr h
      calc |q * 64 - ((⌊q * 64 + 1 / 2⌋ : ℤ) : ℚ)| ≤ 1 / 2 := hd
        _ ≤ (n : ℚ) - q * 64 := by linarith
        _ ≤ |q * 64 - (n : ℚ)| := by rw [abs_sub_comm]; exact le_abs_self _
  · rintro ⟨n, hn⟩
    have hfe : ⌊q * 64 + 1 / 2⌋ = n := by
      rw [Int.floor_eq_iff]
      constructor
      · rw [← hn]; linarith
      · rw [← hn]; linarith
    rw [hfe, ← hn]
  · intro htie
    rw [Int.floor_eq_iff]
    constructor
    · push_cast; linarith
    · push_cast; linarith [Int.lt_floor_add_one (q * 64)]

/-- C3 witness: the tie input 7/128 (value*64 = 3.5, exactly 0.0078125
above the representable 3/64) rounds up to 4. -/
theorem fixedFromFloat64_round_nearest_half_up_witness :
    fixedFromFloat64 (7 / 128 : ℚ) = ⌊(7 / 128 : ℚ) * 64⌋ + 1 :=
  (fixedFromFloat64_round_nearest_half_up (7 / 128)).2.2 (by norm_num)

/-- C4 counterexample: value -7/128 has value*64 = -3.5, exactly halfway
between the representable values -4 and -3; rounding away from zero would
give -4, but the code returns -3. -/
theorem fixedFromFloat64_negative_tie_counterexample :
    fixedFromFloat64 (-7 / 128 : ℚ) = -3 ∧ fixedFromFloat64 (-7 / 128 : ℚ) ≠ -4 := by
  have h := fixedFromFloat64_eq_floor (-7 / 128 : ℚ)
  have hf : ⌊(-7 / 128 : ℚ) * 64 + 1 / 2⌋ = -3 := by norm_num
  rw [hf] at h
  exact ⟨h, by rw [h]; decide⟩

/-- C4 amended: a tie (an input exactly halfway between two consecutive
representable 26.6 values, negative inputs included) rounds toward
positive infinity — the greater of the two neighbors, which for a negative
tie is the value of smaller magnitude, not the larger-magnitude one. -/
theorem fixedFromFloat64_tie_rounds_up (q : ℚ)
    (h : q * 64 - ((⌊q * 64⌋ : ℤ) : ℚ) = 1 / 2) :
    fixedFromFloat64 q = ⌊q * 64⌋ + 1 ∧
      ((fixedFromFloat64 q : ℤ) : ℚ) = q * 64 + 1 / 2 := by
  have hr := fixedFromFloat64_eq_floor q
  have hfe : ⌊q * 64 + 1 / 2⌋ = ⌊q * 64⌋ + 1 := by
    rw [Int.floor_eq_iff]
    constructor
    · push_cast; linarith
    · push_cast; linarith [Int.lt_floor_add_one (q * 64)]
  refine ⟨hr.trans hfe, ?_⟩
  rw [hr, hfe]; push_cast; linarith

/-- C4 witness: the negative tie -7/128 satisfies the tie hypothesis and
rounds to ⌊-3.5⌋ + 1 = -3, the neighbor toward positive infinity. -/
theorem fixedFromFloat64_tie_rounds_up_witness :
    fixedFromFloat64 (-7 / 128 : ℚ) = ⌊(-7 / 128 : ℚ) * 64⌋ + 1 :=
  (fixedFromFloat64_tie_rounds_up (-7 / 128) (by norm_num)).1

/-- C5 counterexample: for coordinate 1 and scale factor 32 (= 0.5), the
fixed-point product sits exactly on a rounding tie, and flip-then-scale
gives 0 while scale-then-flip gives -1 — the order is observable. -/
theorem negate_scale_commute_counterexample :
    fixedMul (i32neg 1) 32 ≠ i32neg (fixedMul 1 32) := by decide

/-- C5 amended: insertion-time Y negation commutes with fixed-point
uniform scaling for every in-range coordinate whose scaled product does
not land exactly on a rounding tie (c*s ≢ 32 mod 64); at ties the
round-half-up rule of `Int26_6.Mul` breaks the symmetry. -/
theorem negate_scale_commute_off_ties (c s : Int)
    (hc1 : -2 ^ 31 < c) (hc2 : c < 2 ^ 31)
    (ht : (c * s) % 64 ≠ 32) :
    fixedMul (i32neg c) s = i32neg (fixedMul c s) := by
  have hneg : i32neg c = -c := by unfold i32neg toInt32; omega
  rw [hneg]
  unfold fixedMul i32neg
  rw [neg_mul, toInt32_neg_toInt32]
  congr 1
  generalize c * s = t at ht ⊢
  omega

/-- C5 witness: coordinate 2 with scale 3 is off the tie and the two
orders agree. -/
theorem negate_scale_commute_off_ties_witness :
    (-2 ^ 31 < (2 : Int)) ∧ ((2 : Int) < 2 ^ 31) ∧ ((2 * 3 : Int) % 64 ≠ 32) ∧
      fixedMul (i32neg 2) 3 = i32neg (fixedMul 2 3) :=
  ⟨by decide, by decide, by decide,
    negate_scale_commute_off_ties 2 3 (by decide) (by decide) (by decide)⟩

/-- C1: a path that is empty or contains only MoveTo commands (any count)
rasterizes to the distinguished "nothing to draw" result — a null mask
together with a nil error, not an error value and not a mask — and the
external accumulator receives no call at all (no reset, no replay, no
draw); `Shape.RasterizeFract` behaves the same way on such a shape. -/
theorem rasterize_moveto_only_nothing_to_draw (drawCoverage : DrawFn)
    (outline : List Segment) (shape : Shape) (originX originY : Int)
    (h : ∀ seg ∈ outline, seg.op = SegmentOp.moveTo)
    (hs : ∀ seg ∈ shape.segments, seg.op = SegmentOp.moveTo) :
    Rasterize drawCoverage outline originX originY = ((none, none), []) ∧
      Shape.RasterizeFract drawCoverage shape originX originY = ((none, none), []) := by
  constructor
  · unfold Rasterize; rw [if_pos h]
  · unfold Shape.RasterizeFract Shape.Segments
    by_cases hempty : shape.segments = []
    · rw [if_pos hempty]
    · rw [if_neg hempty]
      unfold Rasterize; rw [if_pos hs]

/-- C1 witness: a two-MoveTo path (and the shape holding it) rasterizes to
the null mask, nil error and empty accumulator trace. -/
theorem rasterize_moveto_only_nothing_to_draw_witness :
    (∀ seg ∈ moveOnlySegs, seg.op = SegmentOp.moveTo) ∧
      Rasterize sampleDraw moveOnlySegs 9 9 = ((none, none), []) ∧
      Shape.RasterizeFract sampleDraw moveOnlyShape 9 9 = ((none, none), []) := by
  have h := rasterize_moveto_only_nothing_to_draw sampleDraw moveOnlySegs
    moveOnlyShape 9 9 (by decide) (by decide)
  exact ⟨by decide, h.1, h.2⟩

/-- C2: `figureOutBounds` returns the claimed mask correction,
normalization offsets and canvas size (the width is the true whole-pixel
ceiling of `bounds.maxX + normOffsetX`, height symmetric), and the result
depends on the caller origin only through its sub-pixel fractional
part. -/
theorem figureOutBounds_formulas_and_fract_only (bounds : Rect26_6)
    (originX originY ox2 oy2 : Int)
    (hx : fixedFract originX = fixedFract ox2)
    (hy : fixedFract originY = fixedFract oy2) :
    (figureOutBounds bounds originX originY).maskCorrection =
      ⟨fixedToIntFloor (fixedFloor bounds.minX), fixedToIntFloor (fixedFloor bounds.minY)⟩ ∧
    (figureOutBounds bounds originX originY).normOffsetX =
      -fixedFloor bounds.minX + fixedFract originX ∧
    (figureOutBounds bounds originX originY).normOffsetY =
      -fixedFloor bounds.minY + fixedFract originY ∧
    (figureOutBounds bounds originX originY).width =
      int26Ceil (bounds.maxX + (figureOutBounds bounds originX originY).normOffsetX) ∧
    (figureOutBounds bounds originX originY).height =
      int26Ceil (bounds.maxY + (figureOutBounds bounds originX originY).normOffsetY) ∧
    64 * ((figureOutBounds bounds originX originY).width - 1) <
      bounds.maxX + (figureOutBounds bounds originX originY).normOffsetX ∧
    bounds.maxX + (figureOutBounds bounds originX originY).normOffsetX ≤
      64 * (figureOutBounds bounds originX originY).width ∧
    figureOutBounds bounds originX originY = figureOutBounds bounds ox2 oy2 := by
  refine ⟨rfl, rfl, rfl, rfl, rfl,
    (int26Ceil_is_ceil (bounds.maxX + (figureOutBounds bounds originX originY).normOffsetX)).1,
    (int26Ceil_is_ceil (bounds.maxX + (figureOutBounds bounds originX originY).normOffsetX)).2,
    ?_⟩
  simp only [figureOutBounds, fixedFract] at hx hy ⊢
  rw [hx, hy]

/-- C2 witness: two origins sharing their fractional parts (70 and 6 have
fract 6; -100 and 28 have fract 28) give identical bounds results on a
concrete rectangle. -/
theorem figureOutBounds_formulas_and_fract_only_witness :
    fixedFract 70 = fixedFract 6 ∧ fixedFract (-100) = fixedFract 28 ∧
      figureOutBounds ⟨-10, 5, 100, 200⟩ 70 (-100) =
        figureOutBounds ⟨-10, 5, 100, 200⟩ 6 28 :=
  ⟨by decide, by decide,
    (figureOutBounds_formulas_and_fract_only ⟨-10, 5, 100, 200⟩ 70 (-100) 6 28
      (by decide) (by decide)).2.2.2.2.2.2.2⟩

/-- C6 amended: whenever rasterization produces a mask, the mask rectangle
is the initial `[0,width) x [0,height)` canvas translated by
`maskCorrection` alone — the whole-pixel part of the caller origin is
discarded rather than added (the entire result is invariant under adding
whole pixels to the origin) — and the final translation changes only the
rectangle: the pixel data is exactly the accumulator output for the
normalized replay. -/
theorem rasterize_mask_rect_correction_only (drawCoverage : DrawFn)
    (outline : List Segment) (originX originY wholeX wholeY : Int)
    (mask : AlphaMask) (err : Option GoError) (trace : List AccOp)
    (h : Rasterize drawCoverage outline originX originY = ((some mask, err), trace)) :
    mask.rect =
      (IRect.mk 0 0 (figureOutBounds (segBounds outline) originX originY).width
          (figureOutBounds (segBounds outline) originX originY).height).add
        (figureOutBounds (segBounds outline) originX originY).maskCorrection ∧
    mask.pix =
      drawCoverage (figureOutBounds (segBounds outline) originX originY).width
        (figureOutBounds (segBounds outline) originX originY).height
        (processOutline outline
          (figureOutBounds (segBounds outline) originX originY).normOffsetX
          (figureOutBounds (segBounds outline) originX originY).normOffsetY) ∧
    Rasterize drawCoverage outline (originX + 64 * wholeX) (originY + 64 * wholeY) =
      Rasterize drawCoverage outline originX originY := by
  have hfb : figureOutBounds (segBounds outline) (originX + 64 * wholeX)
      (originY + 64 * wholeY) = figureOutBounds (segBounds outline) originX originY := by
    simp only [figureOutBounds, fixedFract]
    have h1 : (originX + 64 * wholeX) % 64 = originX % 64 := by omega
    have h2 : (originY + 64 * wholeY) % 64 = originY % 64 := by omega
    rw [h1, h2]
  unfold Rasterize at h ⊢
  by_cases hall : ∀ seg ∈ outline, seg.op = SegmentOp.moveTo
  · rw [if_pos hall] at h
    simp at h
  · rw [if_neg hall] at h
    rw [if_neg hall, if_neg hall]
    simp only [etxtLikeRasterize, Prod.mk.injEq, Option.some.injEq] at h
    obtain ⟨⟨hmask, _⟩, _⟩ := h
    refine ⟨?_, ?_, ?_⟩
    · rw [← hmask]
    · rw [← hmask]
    · simp only [etxtLikeRasterize]
      rw [hfb]

/-- C6 witness: the unit-line outline rasterized at origin (0,0) produces
a mask whose rectangle satisfies the amended translation formula. -/
theorem rasterize_mask_rect_correction_only_witness :
    (⟨⟨0, 0, 1, 1⟩, sampleDraw 1 1 (processOutline lineSegs 0 0)⟩ : AlphaMask).rect =
      (IRect.mk 0 0 (figureOutBounds (segBounds lineSegs) 0 0).width
          (figureOutBounds (segBounds lineSegs) 0 0).height).add
        (figureOutBounds (segBounds lineSegs) 0 0).maskCorrection :=
  (rasterize_mask_rect_correction_only sampleDraw lineSegs 0 0 0 0
      ⟨⟨0, 0, 1, 1⟩, sampleDraw 1 1 (processOutline lineSegs 0 0)⟩ none
      (AccOp.reset 1 1 :: processOutline lineSegs 0 0 ++ [AccOp.draw]) rfl).1

/-- C6 counterexample: for the unit-square diagonal outline and origin
(64, 0) — exactly one whole pixel in X — the produced mask rectangle is
`[0,1) x [0,1)` (translated by maskCorrection = (0,0) only), not the
rectangle translated additionally by the whole-pixel origin part
(toIntFloor 64, toIntFloor 0) = (1, 0) that the claim predicts. -/
theorem rasterize_mask_rect_counterexample :
    (Rasterize sampleDraw lineSegs 64 0).1.1.map AlphaMask.rect =
      some (IRect.mk 0 0 1 1) ∧
    (Rasterize sampleDraw lineSegs 64 0).1.1.map AlphaMask.rect ≠
      some ((IRect.mk 0 0 1 1).add
        ⟨(figureOutBounds (segBounds lineSegs) 64 0).maskCorrection.x + fixedToIntFloor 64,
         (figureOutBounds (segBounds lineSegs) 64 0).maskCorrection.y + fixedToIntFloor 0⟩) := by
  constructor
  · rfl
  · decide

/-- C7: at insertion time exactly one invert-Y state negates Y, and it is
the inactive (default, false) state: every append command stores each of
its points with the X scaled and the Y first flipped by the invert-Y
policy (negated when the flag is false, kept with its given sign when
true, identically for control and end points) and then scaled; the
whole-pixel commands defer to the fractional ones on coordinates shifted
into 26.6 and wrapped to int32. -/
theorem append_flip_negates_iff_inactive (s : Shape) (cx1 cy1 cx2 cy2 x y : Int) :
    (s.MoveToFract x y).segments = s.segments ++
      [⟨SegmentOp.moveTo, (⟨scApply s x, scApply s (flipApply s y)⟩, ⟨0, 0⟩, ⟨0, 0⟩)⟩] ∧
    (s.LineToFract x y).segments = s.segments ++
      [⟨SegmentOp.lineTo, (⟨scApply s x, scApply s (flipApply s y)⟩, ⟨0, 0⟩, ⟨0, 0⟩)⟩] ∧
    (s.QuadToFract cx1 cy1 x y).segments = s.segments ++
      [⟨SegmentOp.quadTo,
        (⟨scApply s cx1, scApply s (flipApply s cy1)⟩,
         ⟨scApply s x, scApply s (flipApply s y)⟩, ⟨0, 0⟩)⟩] ∧
    (s.CubeToFract cx1 cy1 cx2 cy2 x y).segments = s.segments ++
      [⟨SegmentOp.cubeTo,
        (⟨scApply s cx1, scApply s (flipApply s cy1)⟩,
         ⟨scApply s cx2, scApply s (flipApply s cy2)⟩,
         ⟨scApply s x, scApply s (flipApply s y)⟩)⟩] ∧
    s.MoveTo x y = s.MoveToFract (toInt32 (x * 64)) (toInt32 (y * 64)) ∧
    s.LineTo x y = s.LineToFract (toInt32 (x * 64)) (toInt32 (y * 64)) ∧
    s.QuadTo cx1 cy1 x y = s.QuadToFract (toInt32 (cx1 * 64)) (toInt32 (cy1 * 64))
      (toInt32 (x * 64)) (toInt32 (y * 64)) ∧
    s.CubeTo cx1 cy1 cx2 cy2 x y = s.CubeToFract (toInt32 (cx1 * 64)) (toInt32 (cy1 * 64))
      (toInt32 (cx2 * 64)) (toInt32 (cy2 * 64)) (toInt32 (x * 64)) (toInt32 (y * 64)) ∧
    (s.invertY = false → flipApply s y = i32neg y) ∧
    (s.invertY = true → flipApply s y = y) := by
  unfold Shape.MoveTo Shape.LineTo Shape.QuadTo Shape.CubeTo
    Shape.MoveToFract Shape.LineToFract Shape.QuadToFract Shape.CubeToFract
    flipApply scApply
  cases h : s.invertY <;> simp [h]

/-- C9: `Reset` truncates the segment sequence to empty and changes
nothing else of the shape state: scale factor, invert-Y flag and the
owned rasterizer are retained, `GetScale` and `HasInvertY` answer as
before the reset, and a command appended after the reset is transformed
with the pre-reset scale and invert-Y policy. -/
theorem reset_clears_only_segments (s : Shape) (x y : Int) :
    (s.Reset).segments = [] ∧
    (s.Reset).scale = s.scale ∧
    (s.Reset).invertY = s.invertY ∧
    (s.Reset).rasterizer = s.rasterizer ∧
    (s.Reset).GetScale = s.GetScale ∧
    (s.Reset).HasInvertY = s.HasInvertY ∧
    ((s.Reset).LineToFract x y).segments =
      [⟨SegmentOp.lineTo, (⟨scApply s x, scApply s (flipApply s y)⟩, ⟨0, 0⟩, ⟨0, 0⟩)⟩] := by
  refine ⟨rfl, rfl, rfl, rfl, rfl, rfl, ?_⟩
  unfold Shape.Reset Shape.LineToFract flipApply scApply
  cases h : s.invertY <;> simp [h]

/-- C10: a shape whose non-empty segment list contains only MoveTo
commands makes `Paint` panic instead of returning: `Rasterize` yields the
nil "nothing to draw" mask together with a nil error, so `Paint` passes
the error check and then dereferences the nil mask; a shape with zero
segments instead makes `Paint` return nil without panicking — the
nothing-to-draw sentinel is not handled uniformly at the Paint
interface. -/
theorem paint_nil_mask_panic (drawCoverage : DrawFn) (s s2 : Shape)
    (drawColor backColor : GoColor)
    (hne : s.segments ≠ [])
    (hmv : ∀ seg ∈ s.segments, seg.op = SegmentOp.moveTo)
    (hs2 : s2.segments = []) :
    Shape.Paint drawCoverage s drawColor backColor = .error .nilDeref ∧
    Rasterize drawCoverage s.segments 0 0 = ((none, none), []) ∧
    Shape.Paint drawCoverage s2 drawColor backColor = .ok none := by
  have hru : Rasterize drawCoverage s.segments 0 0 = ((none, none), []) := by
    unfold Rasterize; rw [if_pos hmv]
  refine ⟨?_, hru, ?_⟩
  · unfold Shape.Paint Shape.Segments
    rw [if_neg hne, hru]
  · unfold Shape.Paint Shape.Segments
    rw [if_pos hs2]

/-- C10 witness: the concrete MoveTo-only shape panics in `Paint` with the
nil-dereference, while the fresh empty shape returns nil normally. -/
theorem paint_nil_mask_panic_witness :
    moveOnlyShape.segments ≠ [] ∧
      (∀ seg ∈ moveOnlyShape.segments, seg.op = SegmentOp.moveTo) ∧
      Shape.Paint sampleDraw moveOnlyShape ⟨1, 2, 3, 4⟩ ⟨5, 6, 7, 8⟩ = .error .nilDeref ∧
      Shape.Paint sampleDraw New ⟨1, 2, 3, 4⟩ ⟨5, 6, 7, 8⟩ = .ok none := by
  have h := paint_nil_mask_panic sampleDraw moveOnlyShape New ⟨1, 2, 3, 4⟩ ⟨5, 6, 7, 8⟩
    (by decide) (by decide) (by decide)
  exact ⟨by decide, by decide, h.1, h.2.2⟩

/-- C8: per pixel, `Paint` builds a foreground whose alpha is the draw
color's alpha scaled by the mask coverage through integer arithmetic
(`alpha * coverage / 255`) and composites it with `mixColors`, which
returns the source unchanged at source alpha 0xFFFF, the background
unchanged at source alpha 0, the source when the background alpha is 0
(and the source alpha neither full nor zero), and otherwise the
premultiplied source-over channels `(src + dst*(1-srcA))` clamped to the
channel maximum, with no uint32 wraparound for lawful premultiplied
colors. -/
theorem paint_pixel_composite_spec (d b : GoColor) (cov : Nat)
    (hdr : d.r ≤ d.a) (hdg : d.g ≤ d.a) (hdb : d.b ≤ d.a) (hda : d.a ≤ 65535)
    (hbr : b.r ≤ b.a) (hbg : b.g ≤ b.a) (hbb : b.b ≤ b.a) (hba : b.a ≤ 65535)
    (hcov : cov ≤ 255) :
    (paintSource d cov).a = d.a * cov / 255 ∧
    paintPixel d b cov = mixColors (paintSource d cov) b ∧
    (∀ (mask : AlphaMask) (px py : Int),
      mask.rect.minX ≤ px → px < mask.rect.maxX →
      mask.rect.minY ≤ py → py < mask.rect.maxY →
      (renderRGBA mask d b).pixelAt px py =
        mixColors (paintSource d (mask.alphaAt px py)) b) ∧
    (d.a = 0xFFFF → mixColors d b = d) ∧
    (d.a = 0 → mixColors d b = b) ∧
    (d.a ≠ 0 → b.a = 0 → mixColors d b = d) ∧
    (d.a ≠ 0xFFFF → d.a ≠ 0 → b.a ≠ 0 →
      mixColors d b =
        ⟨min ((d.r * 65535 + b.r * (65535 - d.a)) / 65535) 65535,
         min ((d.g * 65535 + b.g * (65535 - d.a)) / 65535) 65535,
         min ((d.b * 65535 + b.b * (65535 - d.a)) / 65535) 65535,
         min ((d.a * 65535 + b.a * (65535 - d.a)) / 65535) 65535⟩) := by
  refine ⟨?_, rfl, ?_, ?_, ?_, ?_, ?_⟩
  · show (u32 (d.a * cov) / 255 % 2 ^ 16) = d.a * cov / 255
    have hle : d.a * cov ≤ 65535 * 255 := Nat.mul_le_mul hda hcov
    generalize d.a * cov = P at hle ⊢
    unfold u32
    omega
  · intro mask px py h1 h2 h3 h4
    simp only [renderRGBA, paintPixel]
    rw [if_pos ⟨h1, h2, h3, h4⟩]
  · intro h; unfold mixColors; rw [if_pos h]
  · intro h
    unfold mixColors
    rw [if_neg (show ¬d.a = 0xFFFF by omega), if_pos h]
  · intro hdna h
    unfold mixColors
    by_cases hmax : d.a = 0xFFFF
    · rw [if_pos hmax]
    · rw [if_neg hmax, if_neg hdna, if_pos h]
  · intro h1 h2 h3
    unfold mixColors
    rw [if_neg h1, if_neg h2, if_neg h3]
    rw [mixChannel_no_wrap d.r b.r d.a hdr hda (le_trans hbr hba),
      mixChannel_no_wrap d.g b.g d.a hdg hda (le_trans hbg hba),
      mixChannel_no_wrap d.b b.b d.a hdb hda (le_trans hbb hba),
      mixChannel_no_wrap d.a b.a d.a (le_refl _) hda hba,
      uint16N_eq_min, uint16N_eq_min, uint16N_eq_min, uint16N_eq_min]

/-- C8 witness: a concrete lawful foreground/background pair with coverage
128 satisfies the alpha-scaling formula and the general source-over
branch. -/
theorem paint_pixel_composite_spec_witness :
    (paintSource ⟨1000, 2000, 3000, 40000⟩ 128).a = 40000 * 128 / 255 ∧
      mixColors ⟨1000, 2000, 3000, 40000⟩ ⟨100, 200, 250, 50000⟩ =
        ⟨min ((1000 * 65535 + 100 * (65535 - 40000)) / 65535) 65535,
         min ((2000 * 65535 + 200 * (65535 - 40000)) / 65535) 65535,
         min ((3000 * 65535 + 250 * (65535 - 40000)) / 65535) 65535,
         min ((40000 * 65535 + 50000 * (65535 - 40000)) / 65535) 65535⟩ := by
  have h := paint_pixel_composite_spec ⟨1000, 2000, 3000, 40000⟩ ⟨100, 200, 250, 50000⟩ 128
    (by decide) (by decide) (by decide) (by decide) (by decide) (by decide) (by decide)
    (by decide) (by decide)
  exact ⟨h.1, h.2.2.2.2.2.2 (by decide) (by decide) (by decide)⟩

end Sfntshape
